import Mathlib

/-!
Shallow embedding of `src/example_model_simple.py` (jelford/example-scripts).

The script is a Numerai pipeline: it loads tabular data (pandas DataFrames),
predicts with a model, computes per-era feature/target correlations,
neutralizes predictions against risky features, computes validation metrics,
selects the best model by mean correlation, and emits a percentile-ranked
prediction column.

DataFrames are embedded column-oriented: a frame is a list of named columns,
each column a list of cells.  A cell is a rational number, a string, or null
(pandas NaN / None).  Floating-point numbers are idealized as rationals
(exact inputs) and reals (derived statistics involving square roots).

The functions `neutralize`, `get_biggest_change_features` and
`validation_metrics` are imported by the script from a `utils` module that is
not part of the sources given here; they are modelled from the spec
(sections 4.3, 4.4, 4.5), and marked as such in their doc comments.
-/

/-- A pandas cell: a numeric value, a string value, or null (NaN/None). -/
inductive Cell where
  | num (q : ℚ)
  | str (s : String)
  | null
deriving DecidableEq, Repr

/-- A column-oriented DataFrame: named columns, each a list of cells.
Column order is the frame's column order; row `i` of column `c` is `c.2.get i`. -/
structure Frame where
  cols : List (String × List Cell)
deriving DecidableEq, Repr

namespace Frame

/-- Column lookup by name (first match), as in `df[name]` / `df.loc[:, name]`.
Returns `none` when the column is absent (pandas raises `KeyError`). -/
def getCol (df : Frame) (name : String) : Option (List Cell) :=
  (df.cols.find? (fun c => c.1 = name)).map (·.2)

/-- Column assignment `df[name] = vals`: replaces the column in place if it
exists, otherwise appends a new column on the right (pandas semantics). -/
def setCol (df : Frame) (name : String) (vals : List Cell) : Frame :=
  if df.cols.any (fun c => c.1 = name) then
    ⟨df.cols.map (fun c => if c.1 = name then (name, vals) else c)⟩
  else
    ⟨df.cols ++ [(name, vals)]⟩

/-- The frame has `n` rows: every column holds exactly `n` cells. -/
def wellsized (df : Frame) (n : ℕ) : Prop :=
  ∀ c ∈ df.cols, c.2.length = n

instance (df : Frame) (n : ℕ) : Decidable (df.wellsized n) :=
  List.decidableBAll _ df.cols

/-- The list of column names, in frame order. -/
def names (df : Frame) : List String :=
  df.cols.map (·.1)

/-- `df.loc[:, cols]` with a list of column labels: pandas returns a COPY of
the selected columns (missing labels would raise, but the script only selects
feature columns that exist).  Selection keeps the requested label order. -/
def selectCols (df : Frame) (sel : List String) : Frame :=
  ⟨sel.filterMap (fun name => (df.getCol name).map (fun v => (name, v)))⟩

end Frame

/-! ### NaN handling step (script lines 72-81)

```python
if tournament_data.loc[tournament_data["data_type"] == "live", feature_cols].isna().sum().sum():
    ...
    tournament_data.loc[:, feature_cols].fillna(0.5, inplace=True)
```

`tournament_data.loc[:, feature_cols]` evaluates to a copy (pandas column-list
selection always copies), so `fillna(..., inplace=True)` fills that copy and
the copy is then discarded: `tournament_data` itself is never modified.  We
model the step as returning the (unchanged) frame together with the filled
copy, so the discarded object stays observable. -/

/-- `fillna(v)` applied to every column of a frame: null cells become `num v`. -/
def fillnaFrame (df : Frame) (v : ℚ) : Frame :=
  ⟨df.cols.map (fun c => (c.1, c.2.map (fun cell => if cell = Cell.null then Cell.num v else cell)))⟩

/-- Number of null cells among the columns `sel` restricted to the rows where
column `"data_type"` equals `"live"` — the condition of script line 73. -/
def liveNaNTotal (df : Frame) (sel : List String) : ℕ :=
  let dt := (df.getCol "data_type").getD []
  let liveIdx := (List.range dt.length).filter (fun i => dt.getD i Cell.null = Cell.str "live")
  ((df.selectCols sel).cols.map
    (fun c => (liveIdx.filter (fun i => c.2.getD i Cell.null = Cell.null)).length)).sum

/-- Script lines 72-81: check for NaNs among live-row feature cells; if any,
run `tournament_data.loc[:, feature_cols].fillna(0.5, inplace=True)`.  The
first component is `tournament_data` after the step; the second is the filled
copy that the inplace `fillna` actually wrote to (discarded by the script). -/
def nanStep (df : Frame) (featureCols : List String) : Frame × Option Frame :=
  if 0 < liveNaNTotal df featureCols then
    (df, some (fillnaFrame (df.selectCols featureCols) (1/2)))
  else
    (df, none)

/-! ### Percentile rank (script lines 133-134)

`validation_data[best_model].rank(pct=True)` — pandas `Series.rank` with the
default `method='average'`: tied values all receive the average of the ordinal
ranks they occupy, and `pct=True` divides by the number of rows.  The rank of
a value `v` in column `l` is `#{j | l_j < v} + (#{j | l_j = v} + 1)/2`. -/

/-- The percentile rank pandas assigns to value `v` within column `l`:
the average of the ordinal ranks the tied group occupies, divided by `n`. -/
def rankPctVal (l : List ℚ) (v : ℚ) : ℚ :=
  ((l.countP (fun w => w < v) : ℚ) + ((l.countP (fun w => w = v) : ℚ) + 1) / 2) / (l.length : ℚ)

/-- `Series.rank(pct=True)` with pandas' default average tie method, on an
all-numeric column. -/
def rankPct (l : List ℚ) : List ℚ :=
  l.map (rankPctVal l)

/-- Extract an all-numeric column from a frame (`none` if the column is
missing or holds a non-numeric cell). -/
def Frame.getNumCol (df : Frame) (name : String) : Option (List ℚ) :=
  (df.getCol name).bind (fun cells =>
    cells.mapM (fun cell => match cell with | Cell.num q => some q | _ => none))

/-- Script line 133/134: `df["prediction"] = df[best].rank(pct=True)`. -/
def emitPrediction (df : Frame) (best : String) : Option Frame :=
  (df.getNumCol best).map (fun l => df.setCol "prediction" ((rankPct l).map Cell.num))

/-! ### Model selection (script line 129)

`validation_stats.sort_values(by="mean", ascending=False).head(1).index[0]`.
pandas `sort_values(ascending=False)` argsorts ascending and reverses the
resulting indexer (`pandas.core.sorting.nargsort`).  numpy's argsort is an
introsort that runs plain insertion sort on small arrays (certainly on the
two-row table this script builds), so the ascending argsort is stable there;
we model it with a stable ascending insertion sort followed by `reverse`.
The head of the reversed list is the selected row label. -/

/-- Row order used by `sort_values(by="mean")`: compare the mean statistic. -/
def leMean {α : Type} [LinearOrder α] (a b : String × α) : Prop :=
  a.2 ≤ b.2

instance {α : Type} [LinearOrder α] : DecidableRel (@leMean α _) :=
  fun a b => inferInstanceAs (Decidable (a.2 ≤ b.2))

instance {α : Type} [LinearOrder α] : IsTotal (String × α) (@leMean α _) :=
  ⟨fun a b => le_total a.2 b.2⟩

instance {α : Type} [LinearOrder α] : IsTrans (String × α) (@leMean α _) :=
  ⟨fun _ _ _ h h' => le_trans h h'⟩

/-- Script line 129: the index label of the first row of the stats table after
sorting by `"mean"` descending.  `stats` is the table as (row label, mean)
pairs in table row order. -/
def best_model {α : Type} [LinearOrder α] (stats : List (String × α)) : Option String :=
  (((stats.insertionSort leMean).reverse).head?).map (·.1)

/-! ### Feature columns (script line 45) -/

/-- `[c for c in training_data if c.startswith("feature_")]`. -/
def featureColsOf (df : Frame) : List String :=
  df.names.filter (fun c => c.startsWith "feature_")

/-! ### Cell ordering (for pandas' sorted group keys)

Python compares strings lexicographically by code point; pandas `groupby`
sorts group keys ascending by default.  `String.decidableLE` does not reduce
in the kernel, so we spell out the code-point lexicographic order. -/

/-- Code-point lexicographic strict order on character lists. -/
def charListLtb : List Char → List Char → Bool
  | [], [] => false
  | [], _ :: _ => true
  | _ :: _, [] => false
  | a :: as, b :: bs =>
    if a.toNat < b.toNat then true
    else if b.toNat < a.toNat then false
    else charListLtb as bs

/-- Python's `<` on strings: code-point lexicographic. -/
def strLtb (s t : String) : Bool := charListLtb s.data t.data

/-- Strict order on cells: null, then numbers by value, then strings
lexicographically.  Era labels in this pipeline are all strings, so only the
string/string case is exercised by group-key sorting. -/
def cellLtb : Cell → Cell → Bool
  | Cell.null, Cell.null => false
  | Cell.null, _ => true
  | Cell.num _, Cell.null => false
  | Cell.num a, Cell.num b => decide (a < b)
  | Cell.num _, Cell.str _ => true
  | Cell.str _, Cell.null => false
  | Cell.str _, Cell.num _ => false
  | Cell.str a, Cell.str b => strLtb a b

/-- Reflexive closure, used as the sort comparator. -/
def cellLe (a b : Cell) : Prop := cellLtb b a = false

instance : DecidableRel cellLe := fun _ _ => inferInstanceAs (Decidable (_ = false))

/-! ### groupby on the era column (script line 100)

`training_data.groupby(ERA_COL)` raises `KeyError` when the era column is
absent.  When present, pandas groups rows by era value, SILENTLY DROPPING
rows whose key is null (`dropna=True` is the default), and sorts the group
keys ascending (`sort=True` is the default).  We represent a grouping as the
sorted list of non-null keys, each with the ascending list of its row
indices. -/

/-- Row indices whose era cell equals `e`, ascending. -/
def eraIdxs (ec : List Cell) (e : Cell) : List ℕ :=
  (List.range ec.length).filter (fun i => ec.getD i Cell.null = e)

/-- The sorted distinct non-null keys of an era column. -/
def eraKeys (ec : List Cell) : List Cell :=
  List.insertionSort cellLe (ec.filter (fun c => ¬(c = Cell.null))).dedup

/-- `df.groupby("era")`: `KeyError` if the era column is missing, else the
sorted non-null keys with their row-index groups (null-keyed rows dropped). -/
def groupbyEra (df : Frame) : Except String (List (Cell × List ℕ)) :=
  match df.getCol "era" with
  | none => Except.error "KeyError: era"
  | some ec => Except.ok ((eraKeys ec).map (fun e => (e, eraIdxs ec e)))

/-- Lookup of a keyed row (a groupby group, or a stats-table row) by its key,
first match — `table.loc[key]`. -/
def tableLookup {κ γ : Type} [DecidableEq κ] (gs : List (κ × γ)) (e : κ) : Option γ :=
  (gs.find? (fun g => g.1 = e)).map (·.2)

/-! ### Pearson correlation (pandas `corrwith`, script line 100)

`d[feature_cols].corrwith(d[TARGET_COL])` computes, per feature column, the
Pearson correlation with the target over the group's rows, excluding pairs
where either value is NaN/non-numeric.  The correlation is idealized over ℝ;
in the degenerate cases (fewer than two pairs, or zero variance) pandas
produces NaN, which this embedding maps to the real-division-by-zero junk
value 0. -/

/-- Keep the pairs where both cells are numeric (pandas pairwise NaN drop). -/
def numPairsP : List (Cell × Cell) → List (ℚ × ℚ) :=
  List.filterMap (fun p =>
    match p with
    | (Cell.num a, Cell.num b) => some (a, b)
    | _ => none)

/-- Pearson correlation of a list of numeric pairs:
`(n·Σxy − Σx·Σy) / (√(n·Σx² − (Σx)²) · √(n·Σy² − (Σy)²))`. -/
noncomputable def pearson (ps : List (ℚ × ℚ)) : ℝ :=
  let n : ℚ := ps.length
  let sx : ℚ := (ps.map (·.1)).sum
  let sy : ℚ := (ps.map (·.2)).sum
  let sxy : ℚ := (ps.map (fun p => p.1 * p.2)).sum
  let sxx : ℚ := (ps.map (fun p => p.1 * p.1)).sum
  let syy : ℚ := (ps.map (fun p => p.2 * p.2)).sum
  ((n * sxy - sx * sy : ℚ) : ℝ) /
    (Real.sqrt ((n * sxx - sx * sx : ℚ) : ℝ) * Real.sqrt ((n * syy - sy * sy : ℚ) : ℝ))

/-- The cells of column `name` at the given row indices (the group's view of
that column). -/
def extractCol (df : Frame) (name : String) (idxs : List ℕ) : List Cell :=
  idxs.map (fun i => ((df.getCol name).getD []).getD i Cell.null)

/-- Script line 100:
`training_data.groupby(ERA_COL).apply(lambda d: d[feature_cols].corrwith(d[TARGET_COL]))`
— one row per (sorted) era key, holding for every feature column its Pearson
correlation with `"target"` over that era's rows. -/
noncomputable def all_feature_corrs (df : Frame) (featureCols : List String) :
    Except String (List (Cell × List (String × ℝ))) :=
  (groupbyEra df).map (fun gs =>
    gs.map (fun g =>
      (g.1, featureCols.map (fun f =>
        (f, pearson (numPairsP ((extractCol df f g.2).zip (extractCol df "target" g.2))))))))

/-- Specification-side description of the same quantity: the numeric
(feature, target) pairs of exactly the rows whose era cell equals `e`,
obtained by filtering the zipped columns directly rather than through
groupby indices.  Used to state that each correlation entry is computed only
over its own era's rows. -/
def eraPairs (df : Frame) (f : String) (e : Cell) : List (ℚ × ℚ) :=
  let ec := (df.getCol "era").getD []
  let fv := (df.getCol f).getD []
  let tv := (df.getCol "target").getD []
  numPairsP (((ec.zip (fv.zip tv)).filter (fun p => p.1 = e)).map (·.2))

/-- Append the rows of `ex` below `df`: every column of `df` is extended with
`ex`'s column of the same name (used to state era-locality: appending rows of
other eras must not change an era's correlation entries). -/
def appendRows (df ex : Frame) : Frame :=
  ⟨df.cols.map (fun c => (c.1, c.2 ++ ((ex.getCol c.1).getD [])))⟩

/-! ### Per-model prediction step (script lines 89-97)

```python
model_expected_features = model.booster_.feature_name()
if set(model_expected_features) != set(feature_cols):
    print(f"New features are available! Might want to retrain model {model_name}.")
validation_data.loc[:, f"preds_{model_name}"] = model.predict(validation_data.loc[:, model_expected_features])
```

The mismatch warning is printed first; the subsequent column selection
`df.loc[:, model_expected_features]` raises `KeyError` when any expected
feature is absent from the frame, and otherwise the model predicts with its
own expected feature list (never with the intersection). -/

/-- The prediction step for one model: returns (warning flagged?, outcome),
where the outcome is the feature list the model predicts with, or the
`KeyError` raised by `df.loc[:, model_expected_features]`. -/
def predictStep (dfCols : List String) (expected : List String) (featureCols : List String) :
    Bool × Except String (List String) :=
  (decide (¬(expected ⊆ featureCols ∧ featureCols ⊆ expected)),
    if ∀ f ∈ expected, f ∈ dfCols then Except.ok expected
    else Except.error "KeyError: expected feature missing from frame")

/-! ### Rank normalization (spec 4.2)

Modelled from the spec: the `utils` module imported by the script is not
among the given sources; the RankNormalizer below follows spec section 4.2. -/

/-- The numeric value of a cell, with junk 0 for non-numeric cells (the
neutralization and metrics paths only ever read numeric cells). -/
def cellNum (c : Cell) : ℚ :=
  match c with
  | Cell.num q => q
  | _ => 0

/-- Modelled from the spec (4.2, uniform rank): value at position `i` maps to
`(rank − 0.5) / n`, rank assigned by ascending order with ties broken by
original row order (ordinal): the rank of position `i` is
`#{j | v_j < v_i} + #{j < i | v_j = v_i} + 1`. -/
def uniformRank (l : List ℚ) : List ℚ :=
  (List.range l.length).map (fun i =>
    let v := l.getD i 0
    (((l.countP (fun w => w < v) + (l.take i).countP (fun w => w = v) + 1 : ℕ) : ℚ) - 1 / 2)
      / (l.length : ℚ))

/-- The standard normal cumulative distribution function. -/
noncomputable def stdNormCdf (x : ℝ) : ℝ :=
  ProbabilityTheory.cdf (ProbabilityTheory.gaussianReal 0 1) x

/-- The inverse standard normal CDF (quantile function), as the infimum of
the upper level set of the CDF. -/
noncomputable def probit (p : ℝ) : ℝ :=
  sInf {x : ℝ | p ≤ stdNormCdf x}

/-- Modelled from the spec (4.2, Gaussian quantile): uniform rank followed by
the inverse standard normal CDF, pointwise. -/
noncomputable def gaussianRank (l : List ℚ) : List ℝ :=
  (uniformRank l).map (fun q => probit (q : ℝ))

/-! ### Neutralizer (spec 4.4)

Modelled from the spec: `neutralize` is imported from the missing `utils`
module; the definition below follows spec section 4.4, applied independently
per era:
 1. extract the era's prediction scores and neutralizer feature columns;
 2. if `normalize`, apply the Gaussian-quantile rank transform to the scores;
 3. project the scores onto the span of the neutralizer columns
    (`proj = neutralizers · pinv(neutralizers) · scores` is exactly the
    orthogonal projection onto the column span, which is how the
    Moore–Penrose least-squares projection is embedded here);
 4. subtract `proportion · proj`;
 5. rescale by the era's population standard deviation (ddof = 0); an era
    with zero standard deviation yields the zero vector (the division-junk
    policy, one of the explicit caller policies the spec admits);
 6. reassemble all eras in original row order. -/

/-- One era's neutralization (spec 4.4 steps 2-5): `scores` are the era's
prediction values, `nmat` the era's neutralizer columns. -/
noncomputable def eraNeutralize (scores : List ℚ) (nmat : List (List ℚ)) (p : ℝ)
    (normalize : Bool) : List ℝ :=
  let k := scores.length
  let s1 : List ℝ := if normalize then gaussianRank scores else scores.map (fun q => (q : ℝ))
  let sv : EuclideanSpace ℝ (Fin k) := fun j => s1.getD j 0
  let span : Submodule ℝ (EuclideanSpace ℝ (Fin k)) :=
    Submodule.span ℝ {v | v ∈ nmat.map (fun col => (fun j => ((col.getD j 0 : ℚ) : ℝ) : EuclideanSpace ℝ (Fin k)))}
  let proj : EuclideanSpace ℝ (Fin k) := (orthogonalProjection span sv : EuclideanSpace ℝ (Fin k))
  let res : List ℝ := List.ofFn (fun j : Fin k => sv j - p * proj j)
  let μ : ℝ := res.sum / k
  let σ : ℝ := Real.sqrt ((res.map (fun x => (x - μ) ^ 2)).sum / k)
  res.map (fun x => x / σ)

/-- One neutralized column (spec 4.4 steps 1 and 6): row `i` receives the
entry of its own era's neutralized vector at `i`'s position within that era —
the concatenation of the per-era results back in original row order. -/
noncomputable def neutralizeColumn (df : Frame) (c : String) (neutralizers : List String)
    (p : ℝ) (normalize : Bool) (eraCol : String) : List ℝ :=
  let ec := (df.getCol eraCol).getD []
  (List.range ec.length).map (fun i =>
    let e := ec.getD i Cell.null
    (eraNeutralize ((extractCol df c (eraIdxs ec e)).map cellNum)
        (neutralizers.map (fun f => (extractCol df f (eraIdxs ec e)).map cellNum))
        p normalize).getD
      ((ec.take i).countP (fun x => x = e)) 0)

/-- Modelled from the spec (4.4): `neutralize(df, columns, neutralizers,
proportion, normalize, era_col)` — one fresh output column per requested
prediction column. -/
noncomputable def neutralize (df : Frame) (columns : List String) (neutralizers : List String)
    (proportion : ℝ) (normalize : Bool) (eraCol : String) : List (List ℝ) :=
  columns.map (fun c => neutralizeColumn df c neutralizers proportion normalize eraCol)

/-! ### Validation metrics (spec 4.5)

Modelled from the spec: `validation_metrics` is imported from the missing
`utils` module; the definition below follows spec section 4.5.  Per era and
prediction column, the score is the rank-based correlation of the
rank-normalized prediction against the target; across eras the engine
aggregates mean, population standard deviation, and sharpe = mean / std.
Sharpe's zero-std policy is the real-division junk value 0, which keeps it
finite as the spec requires.  With `fast_mode`, the feature-exposure and
baseline-comparison metrics are skipped; mean/std/sharpe are always
computed. -/

/-- One row of the validation stats table (spec's ValidationStatsRow). -/
structure StatsRow where
  mean : ℝ
  std : ℝ
  sharpe : ℝ
  maxFeatureExposure : Option ℝ
  corrWithExample : Option ℝ

/-- Per-era score of a prediction column: Pearson correlation of the
rank-normalized prediction values against the target, over the era's rows. -/
noncomputable def eraScore (df : Frame) (c : String) (e : Cell) : ℝ :=
  let ec := (df.getCol "era").getD []
  let pv := (extractCol df c (eraIdxs ec e)).map cellNum
  let tv := (extractCol df "target" (eraIdxs ec e)).map cellNum
  pearson ((uniformRank pv).zip tv)

/-- The per-era scores of a column, across the sorted era keys. -/
noncomputable def perEraScores (df : Frame) (c : String) : List ℝ :=
  (eraKeys ((df.getCol "era").getD [])).map (fun e => eraScore df c e)

/-- Mean of the per-era scores. -/
noncomputable def meanScore (df : Frame) (c : String) : ℝ :=
  (perEraScores df c).sum / (perEraScores df c).length

/-- Population standard deviation (ddof = 0) of the per-era scores. -/
noncomputable def stdScore (df : Frame) (c : String) : ℝ :=
  Real.sqrt (((perEraScores df c).map (fun x => (x - meanScore df c) ^ 2)).sum
    / (perEraScores df c).length)

/-- Sharpe = mean / std; std = 0 yields the junk value 0 (finite). -/
noncomputable def sharpeScore (df : Frame) (c : String) : ℝ :=
  meanScore df c / stdScore df c

/-- Modelled from the spec (4.5, non-fast mode): the maximum over features of
the mean absolute per-era correlation between the prediction column and the
feature. -/
noncomputable def maxFeatureExposure (df : Frame) (c : String) : ℝ :=
  ((featureColsOf df).map (fun f =>
    let ec := (df.getCol "era").getD []
    (((eraKeys ec).map (fun e =>
      |pearson (((extractCol df c (eraIdxs ec e)).map cellNum).zip
        ((extractCol df f (eraIdxs ec e)).map cellNum) |> fun l => l.map (fun q => q))|)).sum)
      / (eraKeys ec).length)).foldr max 0

/-- Modelled from the spec (4.5, non-fast mode): mean per-era correlation of
the prediction column against the baseline ("example") column. -/
noncomputable def corrWithExampleCol (df : Frame) (c : String) (exampleCol : String) : ℝ :=
  let ec := (df.getCol "era").getD []
  (((eraKeys ec).map (fun e =>
    pearson (((extractCol df c (eraIdxs ec e)).map cellNum).zip
      ((extractCol df exampleCol (eraIdxs ec e)).map cellNum)))).sum)
    / (eraKeys ec).length

/-- Modelled from the spec (4.5): `validation_metrics(df, pred_cols,
example_col, fast_mode)` — one stats row per prediction column, keyed by
column name; fast mode skips exactly the feature-exposure and
baseline-comparison entries. -/
noncomputable def validation_metrics (df : Frame) (predCols : List String)
    (exampleCol : String) (fastMode : Bool) : List (String × StatsRow) :=
  predCols.map (fun c =>
    (c, { mean := meanScore df c
          std := stdScore df c
          sharpe := sharpeScore df c
          maxFeatureExposure := if fastMode then none else some (maxFeatureExposure df c)
          corrWithExample := if fastMode then none else some (corrWithExampleCol df c exampleCol) }))

/-! ### Feature risk ranking (spec 4.3)

Modelled from the spec: `get_biggest_change_features` is imported from the
missing `utils` module; the definition below follows spec section 4.3.  The
correlation matrix is passed as its chronological era list, its feature list
(original feature-column order), and the (era, feature) entry function; the
field `α` is ℝ in the pipeline and can be instantiated at ℚ to compute. -/

/-- Modelled from the spec (4.3): split the chronological era list into a
first half of ⌈m/2⌉ eras and the rest, rank features descending by the
absolute difference of their half-mean correlations (stable sort, ties by
original feature order), and return the first `k`; fewer than two eras is the
spec's `InsufficientErasError`. -/
def get_biggest_change_features {α : Type} [LinearOrderedField α]
    (eras : List String) (features : List String) (corr : String → String → α) (k : ℕ) :
    Except String (List String) :=
  if eras.length < 2 then Except.error "InsufficientErasError"
  else
    let half1 := eras.take ((eras.length + 1) / 2)
    let half2 := eras.drop ((eras.length + 1) / 2)
    let meanOf := fun (es : List String) (f : String) => (es.map (fun e => corr e f)).sum / es.length
    let chg := fun f => |meanOf half1 f - meanOf half2 f|
    Except.ok ((features.insertionSort (fun a b => chg b ≤ chg a)).take k)

/-! ## Helper lemmas -/

theorem tableLookup_map_self {κ γ : Type} [DecidableEq κ] (G : κ → γ) (keys : List κ)
    (e : κ) (he : e ∈ keys) :
    tableLookup (keys.map (fun k => (k, G k))) e = some (G e) := by
  induction keys with
  | nil => cases he
  | cons k ks ih =>
    by_cases hk : k = e
    · subst hk
      simp [tableLookup]
    · rcases List.mem_cons.mp he with h | h
      · exact absurd h.symm hk
      · simpa [tableLookup, List.find?_cons_of_neg, hk] using ih h

theorem find?_map_fst {β γ : Type} (g : String × β → String × γ) (hg : ∀ c, (g c).1 = c.1)
    (l : List (String × β)) (nm : String) :
    (l.map g).find? (fun c => c.1 = nm) = (l.find? (fun c => c.1 = nm)).map g := by
  induction l with
  | nil => rfl
  | cons c l ih =>
    by_cases hc : c.1 = nm
    · rw [List.map_cons, List.find?_cons_of_pos _ (by simpa [hg] using hc),
        List.find?_cons_of_pos _ (by simpa using hc), Option.map_some']
    · rw [List.map_cons, List.find?_cons_of_neg _ (by simpa [hg] using hc),
        List.find?_cons_of_neg _ (by simpa using hc), ih]

theorem Frame.getCol_setCol_ne (df : Frame) (nm src : String) (h : nm ≠ src)
    (vals : List Cell) :
    (df.setCol nm vals).getCol src = df.getCol src := by
  unfold Frame.setCol Frame.getCol
  by_cases hany : df.cols.any (fun c => c.1 = nm)
  · rw [if_pos hany]
    show ((df.cols.map (fun c => if c.1 = nm then (nm, vals) else c)).find?
        (fun c => c.1 = src)).map (·.2) = _
    rw [find?_map_fst (fun c => if c.1 = nm then (nm, vals) else c)
      (fun c => by by_cases hc : c.1 = nm <;> simp [hc])]
    cases hfind : df.cols.find? (fun c => c.1 = src) with
    | none => simp
    | some c =>
      have hc : c.1 = src := by simpa using List.find?_some hfind
      have hne : ¬(c.1 = nm) := by rw [hc]; exact fun hs => h hs.symm
      simp [hne]
  · rw [if_neg hany]
    show ((df.cols ++ [(nm, vals)]).find? (fun c => c.1 = src)).map (·.2) = _
    rw [List.find?_append]
    cases hfind : df.cols.find? (fun c => c.1 = src) with
    | none => simp [hfind, Option.or, List.find?, h]
    | some c => simp [hfind, Option.or]

theorem Frame.getCol_length (df : Frame) (n : ℕ) (hw : df.wellsized n) (nm : String)
    (v : List Cell) (h : df.getCol nm = some v) : v.length = n := by
  unfold Frame.getCol at h
  cases hfind : df.cols.find? (fun c => c.1 = nm) with
  | none => rw [hfind] at h; cases h
  | some c =>
    rw [hfind] at h
    cases h
    exact hw c (List.mem_of_find?_eq_some hfind)

theorem Frame.getCol_appendRows (df ex : Frame) (nm : String) :
    (appendRows df ex).getCol nm = (df.getCol nm).map (fun v => v ++ ((ex.getCol nm).getD [])) := by
  unfold appendRows Frame.getCol
  show ((df.cols.map (fun c => (c.1, c.2 ++ ((ex.getCol c.1).getD [])))).find?
      (fun c => c.1 = nm)).map (·.2) = _
  rw [find?_map_fst (fun c => (c.1, c.2 ++ ((ex.getCol c.1).getD []))) (fun c => rfl)]
  cases hfind : df.cols.find? (fun c => c.1 = nm) with
  | none => simp
  | some c =>
    have hc : c.1 = nm := by simpa using List.find?_some hfind
    simp [hc, Frame.getCol]

/-! ## Claims -/

/-- **C10**: the NaN-handling step (script lines 72-81) never modifies the
tournament frame: the `fillna(0.5, inplace=True)` is applied to the copy
produced by `df.loc[:, feature_cols]`, so after the step the frame — every
column of it, NaNs included — is exactly the input frame. -/
theorem nanStep_tournament_unchanged (df : Frame) (featureCols : List String) :
    (nanStep df featureCols).1 = df ∧
    ∀ c : String, ((nanStep df featureCols).1).getCol c = df.getCol c := by
  constructor
  · unfold nanStep
    split <;> rfl
  · intro c
    unfold nanStep
    split <;> rfl

/-- **C3 counterexample**: the emitted prediction column is produced by
`rank(pct=True)` with pandas' default average tie method, so two rows with
equal values receive the SAME rank (here both get 3/4), contradicting the
claimed ordinal tie-break under which no two rows share a rank. -/
theorem rankPct_ties_share_rank_cex :
    rankPct [1, 1] = [3 / 4, 3 / 4] ∧
    emitPrediction ⟨[("pred", [Cell.num 1, Cell.num 1])]⟩ "pred" =
      some ⟨[("pred", [Cell.num 1, Cell.num 1]),
             ("prediction", [Cell.num (3 / 4), Cell.num (3 / 4)])]⟩ := by
  constructor
  · simp [rankPct, rankPctVal, List.countP_cons]
    norm_num
  · have h : Frame.getNumCol ⟨[("pred", [Cell.num 1, Cell.num 1])]⟩ "pred" = some [1, 1] := by
      rfl
    rw [emitPrediction, h]
    simp [Frame.setCol, Frame.getCol, rankPct, rankPctVal, List.countP_cons]
    norm_num

/-- **C2 counterexample**: with two rows tied at the maximum mean, the
selector returns the row occurring LAST in table order — `"b"` when the
table lists `("a", 1)` first, `"a"` when it lists `("b", 1)` first — so the
tie is broken by table row position, not by column-name order (neither
ascending nor descending name order explains both selections). -/
theorem best_model_tie_not_name_order_cex :
    best_model [("a", (1 : ℚ)), ("b", 1)] = some "b" ∧
    best_model [("b", (1 : ℚ)), ("a", 1)] = some "a" := by
  decide

/-- **C2 amended**: on a two-row stats table (the shape this script builds:
raw and neutralized predictions of the single model) with tied means, the
selector picks the row occurring later in table order: the ascending argsort
is stable and `ascending=False` reverses it, so the later tied row surfaces
first. -/
theorem best_model_tie_last_row {α : Type} [LinearOrder α] (a b : String × α)
    (h : a.2 = b.2) :
    best_model [a, b] = some b.1 ∧ best_model [b, a] = some a.1 := by
  have hab : leMean a b := le_of_eq h
  have hba : leMean b a := le_of_eq h.symm
  constructor <;>
    simp [best_model, List.insertionSort, List.orderedInsert, if_pos hab, if_pos hba]

/-- Witness for `best_model_tie_last_row` at a concrete tied table. -/
theorem best_model_tie_last_row_witness :
    best_model [("a", (1 : ℚ)), ("b", 1)] = some "b" ∧
    best_model [("b", (1 : ℚ)), ("a", 1)] = some "a" :=
  best_model_tie_last_row ("a", (1 : ℚ)) ("b", 1) (by decide)

/-- **C3 amended**: the emitted prediction column is the percentile rank
transform of the selected column with pandas' average tie method: the output
has the input's row count, rows with EQUAL values receive EQUAL ranks (the
average of the ordinal ranks their tied group occupies), and every rank lies
in the half-open interval (0, 1]. -/
theorem rankPct_average_tie_spec (l : List ℚ) (i j : ℕ) (hi : i < l.length)
    (hj : j < l.length) :
    (rankPct l).length = l.length ∧
    (l.getD i 0 = l.getD j 0 → (rankPct l).getD i 0 = (rankPct l).getD j 0) ∧
    (0 < (rankPct l).getD i 0 ∧ (rankPct l).getD i 0 ≤ 1) := by
  have hlen : (rankPct l).length = l.length := by simp [rankPct]
  have hget : ∀ m, m < l.length → (rankPct l).getD m 0 = rankPctVal l (l.getD m 0) := by
    intro m hm
    rw [List.getD_eq_getElem _ _ (by rwa [hlen]), List.getD_eq_getElem _ _ hm]
    simp [rankPct]
  have hmem : l.getD i 0 ∈ l := by
    rw [List.getD_eq_getElem _ _ hi]
    exact List.getElem_mem _
  have hce : 0 < l.countP (fun w => w = l.getD i 0) := by
    rw [List.countP_pos_iff]
    exact ⟨l.getD i 0, hmem, by simp⟩
  have hn : (0 : ℚ) < (l.length : ℚ) := by
    exact_mod_cast Nat.lt_of_le_of_lt (Nat.zero_le i) hi
  refine ⟨hlen, fun hv => by rw [hget i hi, hget j hj, hv], ?_, ?_⟩
  · rw [hget i hi]
    unfold rankPctVal
    apply div_pos ?_ hn
    have h0 : (0 : ℚ) ≤ (l.countP (fun w => w < l.getD i 0) : ℚ) := by positivity
    have h1 : (0 : ℚ) < ((l.countP (fun w => w = l.getD i 0) : ℚ) + 1) / 2 := by positivity
    linarith
  · rw [hget i hi]
    have htotal := @List.length_eq_countP_add_countP _ (fun w => decide (w < l.getD i 0)) l
    have hmono : l.countP (fun w => w = l.getD i 0)
        ≤ l.countP (fun a => ¬((fun w => decide (w < l.getD i 0)) a = true)) := by
      apply List.countP_mono_left
      intro x _ hx
      simp only [decide_eq_true_eq] at hx ⊢
      rw [hx]
      exact lt_irrefl _
    have hsum : l.countP (fun w => w < l.getD i 0) + l.countP (fun w => w = l.getD i 0)
        ≤ l.length := by
      rw [htotal]
      exact Nat.add_le_add_left hmono _
    have hce1 : (1 : ℚ) ≤ (l.countP (fun w => w = l.getD i 0) : ℚ) := by exact_mod_cast hce
    have hsumq : (l.countP (fun w => w < l.getD i 0) : ℚ)
        + (l.countP (fun w => w = l.getD i 0) : ℚ) ≤ (l.length : ℚ) := by exact_mod_cast hsum
    unfold rankPctVal
    rw [div_le_one hn]
    have hhalf : ((l.countP (fun w => w = l.getD i 0) : ℚ) + 1) / 2
        ≤ (l.countP (fun w => w = l.getD i 0) : ℚ) := by
      rw [div_le_iff₀ (by norm_num : (0 : ℚ) < 2)]
      linarith
    linarith

/-- Witness for `rankPct_average_tie_spec` at the concrete tied column. -/
theorem rankPct_average_tie_spec_witness :
    (rankPct [1, 1]).length = ([1, 1] : List ℚ).length ∧
    (([1, 1] : List ℚ).getD 0 0 = ([1, 1] : List ℚ).getD 1 0 →
      (rankPct [1, 1]).getD 0 0 = (rankPct [1, 1]).getD 1 0) ∧
    (0 < (rankPct [1, 1]).getD 0 0 ∧ (rankPct [1, 1]).getD 0 0 ≤ 1) :=
  rankPct_average_tie_spec [1, 1] 0 1 (by decide) (by decide)

/-- **C6 counterexample**: when the model expects a feature the dataset does
not have, the mismatch warning IS flagged but the subsequent
`df.loc[:, model_expected_features]` raises `KeyError`: the program fails
rather than continuing, contradicting the claim that any feature-set
mismatch is flagged and processing continues. -/
theorem predict_mismatch_fails_cex :
    (predictStep ["feature_a", "era"] ["feature_a", "feature_b"] ["feature_a"]).1 = true ∧
    (predictStep ["feature_a", "era"] ["feature_a", "feature_b"] ["feature_a"]).2 =
      Except.error "KeyError: expected feature missing from frame" := by
  exact ⟨by decide, rfl⟩

/-- **C6 amended**: the mismatch flag (the printed warning) is raised exactly
when the model's expected feature set differs from the dataset's feature-set,
and processing then continues — predicting with the model's own expected
features, never the intersection — precisely when every expected feature is
still present in the frame; if some expected feature is absent, the column
selection raises `KeyError` and the program fails. -/
theorem predictStep_spec (dfCols expected featureCols : List String) :
    ((predictStep dfCols expected featureCols).1 = true ↔
      ¬(expected ⊆ featureCols ∧ featureCols ⊆ expected)) ∧
    ((∀ f ∈ expected, f ∈ dfCols) →
      (predictStep dfCols expected featureCols).2 = Except.ok expected) ∧
    ((¬∀ f ∈ expected, f ∈ dfCols) →
      (predictStep dfCols expected featureCols).2 =
        Except.error "KeyError: expected feature missing from frame") := by
  refine ⟨by simp [predictStep]; tauto, fun h => ?_, fun h => ?_⟩
  · show (if ∀ f ∈ expected, f ∈ dfCols then Except.ok expected else _) = _
    rw [if_pos h]
  · show (if ∀ f ∈ expected, f ∈ dfCols then Except.ok expected else _) = _
    rw [if_neg h]

/-- Witness for `predictStep_spec`: the mismatch direction the script was
written for (dataset gained features) proceeds with the expected features. -/
theorem predictStep_spec_witness :
    (predictStep ["feature_a", "feature_b", "era"] ["feature_a"]
      ["feature_a", "feature_b"]).2 = Except.ok ["feature_a"] :=
  (predictStep_spec ["feature_a", "feature_b", "era"] ["feature_a"]
    ["feature_a", "feature_b"]).2.1 (by decide)

/-- In an ascending-sorted list, every element is `leMean`-below the last. -/
theorem sorted_leMean_getLast {α : Type} [LinearOrder α] :
    ∀ (s : List (String × α)) (hne : s ≠ []), List.Sorted leMean s →
      ∀ p ∈ s, leMean p (s.getLast hne)
  | [], hne, _, _, hp => absurd rfl hne
  | [a], _, _, p, hp => by
    rw [List.mem_singleton.mp hp]
    exact le_refl _
  | a :: b :: m, _, hs, p, hp => by
    have h1 := (List.sorted_cons.mp hs).1
    have h2 := (List.sorted_cons.mp hs).2
    rw [List.getLast_cons (List.cons_ne_nil b m)]
    rcases List.mem_cons.mp hp with rfl | hp'
    · exact h1 _ (List.getLast_mem (List.cons_ne_nil b m))
    · exact sorted_leMean_getLast (b :: m) (List.cons_ne_nil b m) h2 p hp'

/-- **C1**: on a non-empty validation stats table, the model selector returns
a row label present in the table, and the selected row's mean statistic is
greater than or equal to every other row's mean. -/
theorem best_model_selects_max {α : Type} [LinearOrder α] (t : List (String × α))
    (hne : t ≠ []) :
    ∃ p : String × α, best_model t = some p.1 ∧ p ∈ t ∧ ∀ q ∈ t, q.2 ≤ p.2 := by
  have hperm : List.Perm (t.insertionSort leMean) t := List.perm_insertionSort _ _
  have hs : List.Sorted leMean (t.insertionSort leMean) := List.sorted_insertionSort _ _
  have hsne : t.insertionSort leMean ≠ [] := by
    intro h0
    apply hne
    have hl := hperm.length_eq
    rw [h0] at hl
    exact List.length_eq_zero.mp hl.symm
  refine ⟨(t.insertionSort leMean).getLast hsne, ?_, ?_, ?_⟩
  · unfold best_model
    rw [List.head?_reverse, List.getLast?_eq_getLast _ hsne, Option.map_some']
  · exact hperm.mem_iff.mp (List.getLast_mem hsne)
  · intro q hq
    exact sorted_leMean_getLast _ hsne hs q (hperm.mem_iff.mpr hq)

/-- Witness for `best_model_selects_max` at a concrete two-row table. -/
theorem best_model_selects_max_witness :
    ([("preds_a", (1 : ℚ)), ("preds_b", 2)] : List (String × ℚ)) ≠ [] ∧
    ∃ p : String × ℚ, best_model [("preds_a", (1 : ℚ)), ("preds_b", 2)] = some p.1 ∧
      p ∈ [("preds_a", (1 : ℚ)), ("preds_b", 2)] ∧
      ∀ q ∈ [("preds_a", (1 : ℚ)), ("preds_b", 2)], q.2 ≤ p.2 :=
  ⟨by decide, best_model_selects_max _ (by decide)⟩

/-- **C9**: with at least two eras (the spec's own `InsufficientErasError`
precondition), the feature-risk ranker succeeds and returns exactly
`min k (feature count)` names, all drawn from the input feature list, with no
duplicates when the input features are distinct; determinism holds because
the ranker is a pure function of `(eras, features, corr, k)`. -/
theorem get_biggest_change_features_topk {α : Type} [LinearOrderedField α]
    (eras features : List String) (corr : String → String → α) (k : ℕ)
    (h2 : 2 ≤ eras.length) :
    ∃ out, get_biggest_change_features eras features corr k = Except.ok out ∧
      out.length = min k features.length ∧
      (∀ f ∈ out, f ∈ features) ∧
      (features.Nodup → out.Nodup) := by
  unfold get_biggest_change_features
  rw [if_neg (by omega)]
  refine ⟨_, rfl, ?_, ?_, ?_⟩
  · rw [List.length_take, List.length_insertionSort]
  · intro f hf
    exact (List.perm_insertionSort _ features).mem_iff.mp (List.take_subset _ _ hf)
  · intro hnd
    exact List.Nodup.sublist (List.take_sublist _ _)
      ((List.perm_insertionSort _ features).nodup_iff.mpr hnd)

/-- Witness for `get_biggest_change_features_topk` on a concrete matrix. -/
theorem get_biggest_change_features_topk_witness :
    2 ≤ (["e1", "e2"] : List String).length ∧
    ∃ out, get_biggest_change_features ["e1", "e2"] ["feature_a", "feature_b"]
        (fun _ _ => (0 : ℚ)) 1 = Except.ok out ∧
      out.length = min 1 (["feature_a", "feature_b"] : List String).length ∧
      (∀ f ∈ out, f ∈ (["feature_a", "feature_b"] : List String)) ∧
      ((["feature_a", "feature_b"] : List String).Nodup → out.Nodup) :=
  ⟨by decide, get_biggest_change_features_topk ["e1", "e2"] ["feature_a", "feature_b"]
    (fun _ _ => (0 : ℚ)) 1 (by decide)⟩

/-- **C4 counterexample**: with the era column present but containing a null,
`groupby(ERA_COL)` does NOT fail: it returns the non-null group and silently
drops the null-era row (index 1 belongs to no group), contradicting the claim
that null era values cause an `InvalidEraColumn` failure. -/
theorem groupbyEra_null_dropped_cex :
    groupbyEra ⟨[("era", [Cell.str "e1", Cell.null]), ("target", [Cell.num 1, Cell.num 2])]⟩ =
      Except.ok [(Cell.str "e1", [0])] ∧
    ∀ g ∈ [(Cell.str "e1", [(0 : ℕ)])], (1 : ℕ) ∉ g.2 := by
  exact ⟨rfl, by decide⟩

/-- **C4 amended**: era partitioning fails (pandas `KeyError`) exactly when
the era column is absent; when the column is present it always succeeds, rows
whose era cell is null are silently dropped (they appear in no group), and
every non-null-era row lands in exactly the group of its own label. -/
theorem groupbyEra_spec (df : Frame) :
    (df.getCol "era" = none → groupbyEra df = Except.error "KeyError: era") ∧
    (∀ ec, df.getCol "era" = some ec →
      ∃ gs, groupbyEra df = Except.ok gs ∧
        (∀ i, i < ec.length → ec.getD i Cell.null = Cell.null → ∀ g ∈ gs, i ∉ g.2) ∧
        (∀ i e, i < ec.length → ec.getD i Cell.null = e → e ≠ Cell.null →
          tableLookup gs e = some (eraIdxs ec e) ∧ i ∈ eraIdxs ec e)) := by
  constructor
  · intro h
    unfold groupbyEra
    rw [h]
  · intro ec h
    refine ⟨_, by unfold groupbyEra; rw [h], ?_, ?_⟩
    · intro i _ hnull g hg hig
      rcases List.mem_map.mp hg with ⟨e, he, rfl⟩
      have hval : ec.getD i Cell.null = e := by
        simpa using (List.mem_filter.mp hig).2
      have hne : e ≠ Cell.null := by
        have hdedup : e ∈ (ec.filter (fun c => ¬(c = Cell.null))).dedup :=
          (List.perm_insertionSort _ _).mem_iff.mp he
        have := (List.mem_filter.mp (List.mem_dedup.mp hdedup)).2
        simpa using this
      exact hne (hval.symm.trans hnull)
    · intro i e hi hie hen
      constructor
      · apply tableLookup_map_self
        have hmem : e ∈ ec := by
          rw [← hie, List.getD_eq_getElem _ _ hi]
          exact List.getElem_mem _
        have hdedup : e ∈ (ec.filter (fun c => ¬(c = Cell.null))).dedup :=
          List.mem_dedup.mpr (List.mem_filter.mpr ⟨hmem, by simpa using hen⟩)
        exact (List.perm_insertionSort _ _).mem_iff.mpr hdedup
      · exact List.mem_filter.mpr ⟨List.mem_range.mpr hi, by simpa using hie⟩

/-- Witness for `groupbyEra_spec` at a concrete frame with a null era cell. -/
theorem groupbyEra_spec_witness :
    ∃ gs, groupbyEra ⟨[("era", [Cell.str "e1", Cell.null])]⟩ = Except.ok gs ∧
      (∀ i, i < ([Cell.str "e1", Cell.null] : List Cell).length →
        ([Cell.str "e1", Cell.null] : List Cell).getD i Cell.null = Cell.null →
        ∀ g ∈ gs, i ∉ g.2) ∧
      (∀ i e, i < ([Cell.str "e1", Cell.null] : List Cell).length →
        ([Cell.str "e1", Cell.null] : List Cell).getD i Cell.null = e → e ≠ Cell.null →
        tableLookup gs e = some (eraIdxs [Cell.str "e1", Cell.null] e) ∧
          i ∈ eraIdxs [Cell.str "e1", Cell.null] e) :=
  (groupbyEra_spec ⟨[("era", [Cell.str "e1", Cell.null])]⟩).2 [Cell.str "e1", Cell.null] rfl

/-- **C7**: the neutralizer produces one fresh column per requested
prediction column, each with exactly the frame's row count (the per-era
results are reassembled over every original row index), and attaching the
result under a new column name leaves the source prediction column of the
frame untouched. -/
theorem neutralize_fresh_columns (df : Frame) (columns neutralizers : List String)
    (p : ℝ) (nm : Bool) (eraCol : String) (ec : List Cell)
    (hec : df.getCol eraCol = some ec) (newName src : String) (hne : newName ≠ src)
    (vals : List Cell) :
    (neutralize df columns neutralizers p nm eraCol).length = columns.length ∧
    (∀ out ∈ neutralize df columns neutralizers p nm eraCol, out.length = ec.length) ∧
    (df.setCol newName vals).getCol src = df.getCol src := by
  refine ⟨by simp [neutralize], ?_, Frame.getCol_setCol_ne df newName src hne vals⟩
  intro out hout
  rcases List.mem_map.mp hout with ⟨c, _, rfl⟩
  unfold neutralizeColumn
  rw [hec]
  simp

/-- Witness for `neutralize_fresh_columns` at a concrete one-era frame. -/
theorem neutralize_fresh_columns_witness :
    (neutralize ⟨[("era", [Cell.str "e1"]), ("p", [Cell.num 1])]⟩ ["p"] [] 1 true "era").length
        = (["p"] : List String).length ∧
    (∀ out ∈ neutralize ⟨[("era", [Cell.str "e1"]), ("p", [Cell.num 1])]⟩ ["p"] [] 1 true "era",
      out.length = ([Cell.str "e1"] : List Cell).length) ∧
    ((⟨[("era", [Cell.str "e1"]), ("p", [Cell.num 1])]⟩ : Frame).setCol
        "p_neutral_riskiest_50" []).getCol "p" =
      (⟨[("era", [Cell.str "e1"]), ("p", [Cell.num 1])]⟩ : Frame).getCol "p" :=
  neutralize_fresh_columns ⟨[("era", [Cell.str "e1"]), ("p", [Cell.num 1])]⟩ ["p"] [] 1 true
    "era" [Cell.str "e1"] rfl "p_neutral_riskiest_50" "p" (by decide) []

/-- **C8**: with `fast_mode=True` the validation stats table still carries,
for every prediction column, the same mean, std and sharpe values as the
non-fast table; only the feature-exposure and baseline-comparison entries
are skipped (present in the non-fast table, absent in the fast one). -/
theorem validation_metrics_fast_has_all_stats (df : Frame) (predCols : List String)
    (exampleCol : String) (c : String) (hc : c ∈ predCols) :
    tableLookup (validation_metrics df predCols exampleCol true) c =
      some ⟨meanScore df c, stdScore df c, sharpeScore df c, none, none⟩ ∧
    tableLookup (validation_metrics df predCols exampleCol false) c =
      some ⟨meanScore df c, stdScore df c, sharpeScore df c,
        some (maxFeatureExposure df c), some (corrWithExampleCol df c exampleCol)⟩ := by
  constructor <;>
  · unfold validation_metrics
    rw [tableLookup_map_self _ _ _ hc]
    simp

/-- Witness for `validation_metrics_fast_has_all_stats` at a concrete call. -/
theorem validation_metrics_fast_has_all_stats_witness :
    tableLookup (validation_metrics ⟨[]⟩ ["preds_m"] "example_preds" true) "preds_m" =
      some ⟨meanScore ⟨[]⟩ "preds_m", stdScore ⟨[]⟩ "preds_m", sharpeScore ⟨[]⟩ "preds_m",
        none, none⟩ ∧
    tableLookup (validation_metrics ⟨[]⟩ ["preds_m"] "example_preds" false) "preds_m" =
      some ⟨meanScore ⟨[]⟩ "preds_m", stdScore ⟨[]⟩ "preds_m", sharpeScore ⟨[]⟩ "preds_m",
        some (maxFeatureExposure ⟨[]⟩ "preds_m"),
        some (corrWithExampleCol ⟨[]⟩ "preds_m" "example_preds")⟩ :=
  validation_metrics_fast_has_all_stats ⟨[]⟩ ["preds_m"] "example_preds" "preds_m" (by decide)

/-! ### C5: era-locality of the correlation matrix -/

theorem eraIdxs_cons (a : Cell) (ec : List Cell) (e : Cell) :
    eraIdxs (a :: ec) e =
      (if a = e then [0] else []) ++ (eraIdxs ec e).map (· + 1) := by
  unfold eraIdxs
  rw [List.length_cons, List.range_succ_eq_map, List.filter_cons, List.filter_map]
  by_cases ha : a = e <;> simp [ha, Function.comp_def]

theorem rangeFilterExtract (e : Cell) :
    ∀ (ec fv tv : List Cell), ec.length ≤ fv.length → ec.length ≤ tv.length →
      (eraIdxs ec e).map (fun i => (fv.getD i Cell.null, tv.getD i Cell.null)) =
        ((ec.zip (fv.zip tv)).filter (fun p => p.1 = e)).map (·.2)
  | [], fv, tv, _, _ => by simp [eraIdxs]
  | a :: ec, [], tv, h1, _ => by simp at h1
  | a :: ec, fv, [], _, h2 => by simp at h2
  | a :: ec, f :: fv, t :: tv, h1, h2 => by
    have ih := rangeFilterExtract e ec fv tv (by simpa using h1) (by simpa using h2)
    rw [eraIdxs_cons, List.map_append, List.map_map]
    rw [List.zip_cons_cons, List.zip_cons_cons, List.filter_cons]
    by_cases ha : a = e
    · subst ha
      simp [Function.comp_def]
      simpa using ih
    · simp [ha, Function.comp_def]
      simpa using ih

theorem mem_eraKeys {e : Cell} {ec : List Cell} (he : e ∈ ec) (hen : e ≠ Cell.null) :
    e ∈ eraKeys ec :=
  (List.perm_insertionSort _ _).mem_iff.mpr
    (List.mem_dedup.mpr (List.mem_filter.mpr ⟨he, by simpa using hen⟩))

theorem eraIdxs_append_no_e (ec exc : List Cell) (e : Cell) (hen : e ≠ Cell.null)
    (hex : ∀ c ∈ exc, c ≠ e) :
    eraIdxs (ec ++ exc) e = eraIdxs ec e := by
  unfold eraIdxs
  rw [List.length_append, List.range_add, List.filter_append]
  have h1 : (List.range ec.length).filter (fun i => (ec ++ exc).getD i Cell.null = e)
      = (List.range ec.length).filter (fun i => ec.getD i Cell.null = e) := by
    apply List.filter_congr
    intro i hi
    rw [List.getD_append _ _ _ _ (List.mem_range.mp hi)]
  have h2 : ((List.range exc.length).map (fun x => ec.length + x)).filter
      (fun i => (ec ++ exc).getD i Cell.null = e) = [] := by
    rw [List.filter_eq_nil_iff]
    intro a ha
    rcases List.mem_map.mp ha with ⟨j, hj, rfl⟩
    rw [decide_eq_true_eq, List.getD_append_right _ _ _ _ (Nat.le_add_right _ _),
      Nat.add_sub_cancel_left]
    by_cases hj2 : j < exc.length
    · intro hval
      apply hex (exc.getD j Cell.null) ?_ hval
      rw [List.getD_eq_getElem _ _ hj2]
      exact List.getElem_mem _
    · rw [List.getD_eq_default _ _ (Nat.le_of_not_lt hj2)]
      exact fun hnull => hen hnull.symm
  rw [h1, h2, List.append_nil]

theorem extract_eq_eraPairs (df : Frame) (f : String) (e : Cell) (n : ℕ)
    (hw : df.wellsized n) (ec : List Cell) (hec : df.getCol "era" = some ec)
    (fv : List Cell) (hfv : df.getCol f = some fv)
    (tv : List Cell) (htv : df.getCol "target" = some tv) :
    numPairsP ((extractCol df f (eraIdxs ec e)).zip (extractCol df "target" (eraIdxs ec e)))
      = eraPairs df f e := by
  have hle1 : ec.length ≤ fv.length := by
    rw [Frame.getCol_length df n hw "era" ec hec, Frame.getCol_length df n hw f fv hfv]
  have hle2 : ec.length ≤ tv.length := by
    rw [Frame.getCol_length df n hw "era" ec hec, Frame.getCol_length df n hw "target" tv htv]
  unfold extractCol eraPairs
  rw [hec, hfv, htv]
  simp only [Option.getD_some]
  rw [List.zip_map', rangeFilterExtract e ec fv tv hle1 hle2]

theorem extractCol_append (df ex : Frame) (f : String) (idxs : List ℕ)
    (fv : List Cell) (hfv : df.getCol f = some fv) (hbound : ∀ i ∈ idxs, i < fv.length) :
    extractCol (appendRows df ex) f idxs = extractCol df f idxs := by
  unfold extractCol
  rw [Frame.getCol_appendRows, hfv]
  simp only [Option.map_some', Option.getD_some]
  apply List.map_congr_left
  intro i hi
  exact List.getD_append _ _ _ _ (hbound i hi)

noncomputable def corrRow (df : Frame) (feats : List String) (ec : List Cell) (k : Cell) :
    List (String × ℝ) :=
  feats.map (fun f => (f, pearson (numPairsP
    ((extractCol df f (eraIdxs ec k)).zip (extractCol df "target" (eraIdxs ec k))))))

theorem all_feature_corrs_ok (df : Frame) (feats : List String)
    (ec : List Cell) (hec : df.getCol "era" = some ec) :
    all_feature_corrs df feats
      = Except.ok ((eraKeys ec).map (fun k => (k, corrRow df feats ec k))) := by
  unfold all_feature_corrs groupbyEra
  rw [hec]
  simp only [Except.map, List.map_map]
  rfl

/-- **C5**: every `(era, feature)` entry of the per-era correlation matrix is
the Pearson correlation of that feature with the target computed over exactly
the rows whose era cell equals that era (the directly filtered `eraPairs`),
and the entry does not depend on any other era's data: appending any rows
whose era labels differ from `e` leaves era `e`'s whole row of correlations
unchanged. -/
theorem all_feature_corrs_era_local (df ex : Frame) (feats : List String) (n : ℕ)
    (ec : List Cell) (e : Cell)
    (hw : df.wellsized n) (hec : df.getCol "era" = some ec)
    (he : e ∈ ec) (hen : e ≠ Cell.null)
    (htv : ∃ tv, df.getCol "target" = some tv)
    (hfeats : ∀ f ∈ feats, ∃ fv, df.getCol f = some fv)
    (hex : ∀ c ∈ (ex.getCol "era").getD [], c ≠ e) :
    ∃ gs gs',
      all_feature_corrs df feats = Except.ok gs ∧
      all_feature_corrs (appendRows df ex) feats = Except.ok gs' ∧
      tableLookup gs e = some (feats.map (fun f => (f, pearson (eraPairs df f e)))) ∧
      tableLookup gs' e = some (feats.map (fun f => (f, pearson (eraPairs df f e)))) := by
  obtain ⟨tv, htv⟩ := htv
  have hecn : ec.length = n := Frame.getCol_length df n hw "era" ec hec
  have heca : (appendRows df ex).getCol "era"
      = some (ec ++ (ex.getCol "era").getD []) := by
    rw [Frame.getCol_appendRows, hec, Option.map_some']
  have hidxs : eraIdxs (ec ++ (ex.getCol "era").getD []) e = eraIdxs ec e :=
    eraIdxs_append_no_e _ _ _ hen hex
  have hbound : ∀ fv : List Cell, fv.length = n → ∀ i ∈ eraIdxs ec e, i < fv.length := by
    intro fv hfvn i hi
    rw [hfvn, ← hecn]
    exact List.mem_range.mp (List.mem_filter.mp hi).1
  have hrow : corrRow df feats ec e = feats.map (fun f => (f, pearson (eraPairs df f e))) := by
    unfold corrRow
    apply List.map_congr_left
    intro f hf
    obtain ⟨fv, hfv⟩ := hfeats f hf
    rw [extract_eq_eraPairs df f e n hw ec hec fv hfv tv htv]
  have hrow' : corrRow (appendRows df ex) feats (ec ++ (ex.getCol "era").getD []) e
      = feats.map (fun f => (f, pearson (eraPairs df f e))) := by
    unfold corrRow
    apply List.map_congr_left
    intro f hf
    obtain ⟨fv, hfv⟩ := hfeats f hf
    rw [hidxs]
    rw [extractCol_append df ex f _ fv hfv (hbound fv (Frame.getCol_length df n hw f fv hfv))]
    rw [extractCol_append df ex "target" _ tv htv
      (hbound tv (Frame.getCol_length df n hw "target" tv htv))]
    rw [extract_eq_eraPairs df f e n hw ec hec fv hfv tv htv]
  refine ⟨_, _, all_feature_corrs_ok df feats ec hec,
    all_feature_corrs_ok (appendRows df ex) feats _ heca, ?_, ?_⟩
  · rw [tableLookup_map_self _ _ _ (mem_eraKeys he hen), hrow]
  · rw [tableLookup_map_self _ _ _ (mem_eraKeys (List.mem_append_left _ he) hen), hrow']

/-- Witness for `all_feature_corrs_era_local` at a concrete two-frame pair. -/
theorem all_feature_corrs_era_local_witness :
    ∃ gs gs',
      all_feature_corrs
          ⟨[("era", [Cell.str "e1"]), ("feature_a", [Cell.num 1]), ("target", [Cell.num 1])]⟩
          ["feature_a"] = Except.ok gs ∧
      all_feature_corrs
          (appendRows
            ⟨[("era", [Cell.str "e1"]), ("feature_a", [Cell.num 1]), ("target", [Cell.num 1])]⟩
            ⟨[("era", [Cell.str "e2"]), ("feature_a", [Cell.num 2]), ("target", [Cell.num 0])]⟩)
          ["feature_a"] = Except.ok gs' ∧
      tableLookup gs (Cell.str "e1") =
        some ((["feature_a"] : List String).map (fun f => (f, pearson (eraPairs
          ⟨[("era", [Cell.str "e1"]), ("feature_a", [Cell.num 1]), ("target", [Cell.num 1])]⟩
          f (Cell.str "e1"))))) ∧
      tableLookup gs' (Cell.str "e1") =
        some ((["feature_a"] : List String).map (fun f => (f, pearson (eraPairs
          ⟨[("era", [Cell.str "e1"]), ("feature_a", [Cell.num 1]), ("target", [Cell.num 1])]⟩
          f (Cell.str "e1"))))) :=
  all_feature_corrs_era_local
    ⟨[("era", [Cell.str "e1"]), ("feature_a", [Cell.num 1]), ("target", [Cell.num 1])]⟩
    ⟨[("era", [Cell.str "e2"]), ("feature_a", [Cell.num 2]), ("target", [Cell.num 0])]⟩
    ["feature_a"] 1 [Cell.str "e1"] (Cell.str "e1")
    (by decide) rfl (by decide) (by decide)
    ⟨[Cell.num 1], rfl⟩
    (fun f hf => by rw [List.mem_singleton.mp hf]; exact ⟨[Cell.num 1], rfl⟩)
    (by decide)
